import Mathlib

/-!
Verification of the vault-to-publication resolution pipeline of the `me`
repository (`src/lib/vault-scanner.ts` and `src/lib/utils.ts`).

The TypeScript source is shallowly embedded: YAML metadata values become the
`RawValue` variant type, JavaScript truthiness and string coercion are
modelled explicitly, the slug map is an association list in insertion order
(mirroring a JS object with string keys), and the module-level cache is
explicit state threaded through the read operations.  Filesystem reads and
the external YAML parser (`gray-matter`) are external collaborators: a
document carries its text content together with the parser outcome on that
content, and `extractRawFrontmatter` wraps parser failures with file context
exactly as the source does.
-/

/-- A dynamically typed metadata value as produced by the YAML parser in
JavaScript: string, (integer) number, boolean, array, or null.  Floating
point numbers are outside the scope of the properties checked here. -/
inductive RawValue where
  | str (s : String)
  | num (n : Int)
  | bool (b : Bool)
  | arr (xs : List RawValue)
  | null

/-- JavaScript truthiness of a value (`Boolean(v)`): empty strings, `0`,
`false` and `null` are falsy; every array (even `[]`) is truthy. -/
def truthyV : RawValue → Bool
  | RawValue.str s => !(s == "")
  | RawValue.num n => !(n == 0)
  | RawValue.bool b => b
  | RawValue.arr _ => true
  | RawValue.null => false

/-- JavaScript truthiness of a possibly absent (`undefined`) value. -/
def truthyOpt : Option RawValue → Bool
  | some v => truthyV v
  | none => false

mutual

/-- JavaScript `String(v)` conversion: arrays join their elements with a
comma (with `null` elements rendered as the empty string, as in
`Array.prototype.join`). -/
def jsString : RawValue → String
  | RawValue.str s => s
  | RawValue.num n => toString n
  | RawValue.bool b => if b then "true" else "false"
  | RawValue.null => "null"
  | RawValue.arr xs => jsStringList xs

/-- Comma-joined rendering of array elements, as in `Array.prototype.join`. -/
def jsStringList : List RawValue → String
  | [] => ""
  | [RawValue.null] => ""
  | [x] => jsString x
  | RawValue.null :: xs => "," ++ jsStringList xs
  | x :: xs => jsString x ++ "," ++ jsStringList xs

end

/-- The untyped frontmatter mapping returned by `matter(content).data`,
restricted to the fields the pipeline reads.  `none` is JavaScript
`undefined` (field absent). -/
structure RawData where
  blog : Option RawValue
  title : Option RawValue
  description : Option RawValue
  status : Option RawValue
  published : Option RawValue
  updated : Option RawValue
  category : Option RawValue
  tags : Option RawValue
  slug : Option RawValue

/-- The `RawData` with every field absent. -/
def emptyRawData : RawData :=
  ⟨none, none, none, none, none, none, none, none, none⟩

/-! ### String helpers

Core `String` functions such as `String.startsWith` or `String.splitOn` are
implemented with position loops that do not reduce well in the kernel, so
the few string operations the pipeline needs are defined here directly over
the underlying character lists. -/

/-- Whether `pre` is a prefix of `l`. -/
def listHasPre : List Char → List Char → Bool
  | [], _ => true
  | _ :: _, [] => false
  | p :: ps, c :: cs => p == c && listHasPre ps cs

/-- Whether `pat` occurs as a contiguous sublist of the second argument. -/
def listContainsSub (pat : List Char) : List Char → Bool
  | [] => listHasPre pat []
  | c :: cs => listHasPre pat (c :: cs) || listContainsSub pat cs

/-- Whether the string `pat` occurs as a substring of `s`. -/
def containsStr (s pat : String) : Bool :=
  listContainsSub pat.data s.data

/-- Whether `s` starts with `pre`. -/
def strStartsWith (s pre : String) : Bool :=
  listHasPre pre.data s.data

/-- Drop the first `n` characters of `s`. -/
def strDrop (s : String) (n : Nat) : String :=
  ⟨s.data.drop n⟩

/-- Split a character list at newline characters (JavaScript
`content.split("\n")` for the single-character separator). -/
def splitLinesChars : List Char → List (List Char)
  | [] => [[]]
  | c :: rest =>
    let r := splitLinesChars rest
    if c == '\n' then [] :: r
    else
      match r with
      | [] => [[c]]
      | l :: ls => (c :: l) :: ls

/-- Split a string into its newline-separated lines. -/
def splitNL (s : String) : List String :=
  (splitLinesChars s.data).map (fun cs => ⟨cs⟩)

/-- Join strings with newline separators (JavaScript `array.join("\n")`). -/
def joinNL : List String → String
  | [] => ""
  | [x] => x
  | x :: xs => x ++ "\n" ++ joinNL xs

/-! ### Date parsing

`new Date(str)` / `getTime()` are modelled by `jsDateParse`, returning the
millisecond timestamp for the recognized forms and `none` (an invalid date,
`NaN` timestamp) otherwise.  Modelled subset of the V8 date parser: strict
ISO-8601 calendar dates `YYYY-MM-DD`, optionally followed by a
`THH:MM[:SS][Z]` time part (time zone taken as UTC), plus the legacy
`YYYY/MM/DD` slash form.  All other inputs are treated as unparseable;
the properties checked here only exercise these forms. -/

/-- Numeric value of a decimal digit character. -/
def dig (c : Char) : Option Nat :=
  let n := c.toNat
  if 48 ≤ n && n ≤ 57 then some (n - 48) else none

/-- Two-digit decimal number. -/
def dig2 (a b : Char) : Option Nat :=
  match dig a, dig b with
  | some x, some y => some (x * 10 + y)
  | _, _ => none

/-- Four-digit decimal number. -/
def dig4 (a b c d : Char) : Option Nat :=
  match dig2 a b, dig2 c d with
  | some x, some y => some (x * 100 + y)
  | _, _ => none

/-- Gregorian leap year rule. -/
def isLeap (y : Nat) : Bool :=
  (y % 4 == 0 && !(y % 100 == 0)) || y % 400 == 0

/-- Number of days in a month. -/
def daysInMonth (y m : Nat) : Nat :=
  if m == 2 then (if isLeap y then 29 else 28)
  else if m == 4 || m == 6 || m == 9 || m == 11 then 30
  else 31

/-- Validity of a year-month-day triple. -/
def validYMD (y m d : Nat) : Bool :=
  1 ≤ y && 1 ≤ m && m ≤ 12 && 1 ≤ d && d ≤ daysInMonth y m

/-- Days since 1970-01-01 of a valid civil date (the standard
era-of-400-years computation). -/
def daysSinceEpoch (y m d : Nat) : Int :=
  let yy := if m ≤ 2 then y - 1 else y
  let era := yy / 400
  let yoe := yy % 400
  let mp := (m + 9) % 12
  let doy := (153 * mp + 2) / 5 + (d - 1)
  let doe := yoe * 365 + yoe / 4 - yoe / 100 + doy
  ((era * 146097 + doe : Nat) : Int) - 719468

/-- Millisecond timestamp of a UTC date-time. -/
def msOfDateTime (y m d h mi s : Nat) : Int :=
  daysSinceEpoch y m d * 86400000 + ((h * 3600 + mi * 60 + s) * 1000 : Nat)

/-- Range-checked timestamp construction. -/
def mkDate (y m d h mi s : Nat) : Option Int :=
  if validYMD y m d && h ≤ 23 && mi ≤ 59 && s ≤ 59 then
    some (msOfDateTime y m d h mi s)
  else none

/-- Parse a time suffix `HH:MM[:SS][Z]` and build the timestamp. -/
def parseTimePart (y m d : Nat) : List Char → Option Int
  | [h1, h2, ':', n1, n2] =>
    (match dig2 h1 h2, dig2 n1 n2 with
     | some h, some n => mkDate y m d h n 0
     | _, _ => none)
  | [h1, h2, ':', n1, n2, 'Z'] =>
    (match dig2 h1 h2, dig2 n1 n2 with
     | some h, some n => mkDate y m d h n 0
     | _, _ => none)
  | [h1, h2, ':', n1, n2, ':', s1, s2] =>
    (match dig2 h1 h2, dig2 n1 n2, dig2 s1 s2 with
     | some h, some n, some s => mkDate y m d h n s
     | _, _, _ => none)
  | [h1, h2, ':', n1, n2, ':', s1, s2, 'Z'] =>
    (match dig2 h1 h2, dig2 n1 n2, dig2 s1 s2 with
     | some h, some n, some s => mkDate y m d h n s
     | _, _, _ => none)
  | _ => none

/-- The modelled `new Date(str).getTime()`: `some` millisecond timestamp on
the recognized date forms, `none` (NaN) otherwise. -/
def jsDateParse (str : String) : Option Int :=
  match str.data with
  | [y1, y2, y3, y4, c1, m1, m2, c2, d1, d2] =>
    if (c1 == '-' && c2 == '-') || (c1 == '/' && c2 == '/') then
      match dig4 y1 y2 y3 y4, dig2 m1 m2, dig2 d1 d2 with
      | some y, some m, some d => mkDate y m d 0 0 0
      | _, _, _ => none
    else none
  | y1 :: y2 :: y3 :: y4 :: '-' :: m1 :: m2 :: '-' :: d1 :: d2 :: 'T' :: rest =>
    (match dig4 y1 y2 y3 y4, dig2 m1 m2, dig2 d1 d2 with
     | some y, some m, some d => parseTimePart y m d rest
     | _, _, _ => none)
  | _ => none

/-! ### Path and slug helpers (`src/lib/utils.ts`) -/

/-- Last path component (`path.basename` on the file paths produced by the
directory walk, which always end in a file name). -/
def jsBasename (p : String) : String :=
  ⟨(p.data.reverse.takeWhile (fun c => !(c == '/'))).reverse⟩

/-- File extension including the dot (`path.extname`): the suffix from the
last dot of the base name, unless that dot is its first character. -/
def jsExtname (p : String) : String :=
  let b := (jsBasename p).data
  let afterRev := b.reverse.takeWhile (fun c => !(c == '.'))
  if afterRev.length + 2 ≤ b.length then ⟨'.' :: afterRev.reverse⟩ else ""

/-- Base name with the extension suffix stripped
(`path.basename(filePath, path.extname(filePath))`). -/
def basenameNoExt (p : String) : String :=
  let b := (jsBasename p).data
  let e := (jsExtname p).data
  if e.length ≤ b.length && decide (b.drop (b.length - e.length) = e) then
    ⟨b.take (b.length - e.length)⟩
  else ⟨b⟩

/-- Whether a character is kept by the slug derivation (the regex class
`[A-Za-z0-9]`). -/
def isSlugKeep (c : Char) : Bool :=
  let n := c.toNat
  (65 ≤ n && n ≤ 90) || (97 ≤ n && n ≤ 122) || (48 ≤ n && n ≤ 57)

/-- One pass of `replace(/[^A-Za-z0-9]+/g, "-")`: each maximal run of
characters outside `[A-Za-z0-9]` becomes a single hyphen.  The boolean
records whether the previously emitted character was the hyphen for a
still-open run. -/
def collapseChars : Bool → List Char → List Char
  | _, [] => []
  | prevHyphen, c :: rest =>
    if isSlugKeep c then c :: collapseChars false rest
    else if prevHyphen then collapseChars true rest
    else '-' :: collapseChars true rest

/-- `replace(/[^A-Za-z0-9]+/g, "-")` over a whole string. -/
def collapseNonAlnum (s : String) : String :=
  ⟨collapseChars false s.data⟩

/-- ASCII lowercase conversion.  The source applies `toLowerCase()` after
the collapse, so its input here only contains `[A-Za-z0-9-]`. -/
def toLowerChar (c : Char) : Char :=
  let n := c.toNat
  if 65 ≤ n && n ≤ 90 then Char.ofNat (n + 32) else c

/-- Lowercase a whole string. -/
def jsToLower (s : String) : String :=
  ⟨s.data.map toLowerChar⟩

/-- `createSlugNameFromFilePath`: base name without extension, non-alphanumeric
runs collapsed to single hyphens, lowercased. -/
def createSlugNameFromFilePath (filePath : String) : String :=
  let filename := basenameNoExt filePath
  jsToLower (collapseNonAlnum filename)

/-- `path.relative(root, f)` for the walk outputs, which are always proper
descendants of the root: strips the `root ++ "/"` prefix. -/
def relativize (root f : String) : String :=
  if strStartsWith f (root ++ "/") then strDrop f (root.length + 1) else f

/-! ### Metadata extraction (`extractRawFrontmatter` in `src/lib/utils.ts`)

The file read and the YAML parse are external operations; a document carries
its text content and the parser outcome on that content.  The extractor
returns the parsed mapping, or wraps a parser failure with the file path,
the underlying error and a numbered preview of the first ten lines. -/

/-- Numbered preview lines, starting at 1 (`lines.map((line, i) => ...)`). -/
def numberLines : Nat → List String → List String
  | _, [] => []
  | i, l :: ls => (toString i ++ ": " ++ l) :: numberLines (i + 1) ls

/-- Preview of the first 10 lines of the content, each numbered. -/
def previewOf (content : String) : String :=
  joinNL (numberLines 1 ((splitNL content).take 10))

/-- `extractRawFrontmatter`: the parsed metadata, or an error carrying the
file path, the parser error message and the content preview. -/
def extractRawFrontmatter (markdownFilePath content : String)
    (parsed : Except String RawData) : Except String RawData :=
  match parsed with
  | Except.ok d => Except.ok d
  | Except.error err =>
    Except.error
      ("Failed to parse YAML frontmatter in file: " ++ markdownFilePath ++ "\n\n" ++
       "Error: " ++ err ++ "\n\n" ++
       "File preview (first 10 lines):\n" ++ previewOf content ++ "\n\n" ++
       "Please check the YAML syntax in the frontmatter section (between --- markers).")

/-! ### Frontmatter validation (`validateAndNormalizeFrontmatter`) -/

/-- The validated, normalized frontmatter record (`PostFrontmatter`). -/
structure PostFrontmatter where
  blog : Bool
  title : String
  description : String
  status : Option RawValue
  published : String
  updated : Option String
  category : Option String
  tags : Option (List RawValue)
  slug : Option String

/-- `String(v || "")`: string coercion with falsy values collapsing to the
empty string (used for `title` and `description`). -/
def jsStringOr (v : Option RawValue) : String :=
  match v with
  | some w => if truthyV w then jsString w else ""
  | none => ""

/-- `v ? String(v) : undefined`: optional string coercion of a truthy value
(used for `category` and `slug`). -/
def jsStringOpt (v : Option RawValue) : Option String :=
  match v with
  | some w => if truthyV w then some (jsString w) else none
  | none => none

/-- The message of a missing required date field (the concatenation is
grouped so that the phrases the spec quotes are whole subterms). -/
def msgMissing (filePath fieldName : String) : String :=
  "Blog post \"" ++ filePath ++ "\" is " ++ ("missing required field: " ++ fieldName)

/-- The message of an unparseable date field. -/
def msgInvalid (filePath fieldName dateStr : String) : String :=
  "Blog post \"" ++ filePath ++ "\" has " ++ ("invalid " ++ fieldName) ++ ": \"" ++
    dateStr ++ "\". Please use a valid date format."

/-- `validateDate` from `validateAndNormalizeFrontmatter`: falsy values
(including absent ones) report a missing field, then the string-coerced
value must parse as a date and is returned verbatim. -/
def validateDate (filePath fieldName : String) (dateValue : Option RawValue) :
    Except String String :=
  match dateValue with
  | some v =>
    if truthyV v then
      let dateStr := jsString v
      match jsDateParse dateStr with
      | some _ => Except.ok dateStr
      | none => Except.error (msgInvalid filePath fieldName dateStr)
    else Except.error (msgMissing filePath fieldName)
  | none => Except.error (msgMissing filePath fieldName)

/-- Normalization of the `tags` field: an array is kept verbatim (elements
uncoerced), a truthy scalar is wrapped into a singleton of its string
coercion, anything else is absent. -/
def normalizeTags (v : Option RawValue) : Option (List RawValue) :=
  match v with
  | some (RawValue.arr xs) => some xs
  | some w => if truthyV w then some [RawValue.str (jsString w)] else none
  | none => none

/-- `rawData.updated ? validateDate(rawData.updated, "updated") : undefined`:
the optional-date branch for the `updated` field. -/
def validateUpdated (filePath : String) (updatedValue : Option RawValue) :
    Except String (Option String) :=
  match updatedValue with
  | some v =>
    if truthyV v then (validateDate filePath "updated" updatedValue).map some
    else Except.ok none
  | none => Except.ok none

/-- `validateAndNormalizeFrontmatter`: the typed record, or the first date
validation error.  In the source the record literal evaluates its fields in
order and only `published` and `updated` can throw, so those two are
sequenced first here. -/
def validateAndNormalizeFrontmatter (rawData : RawData) (filePath : String) :
    Except String PostFrontmatter :=
  match validateDate filePath "published" rawData.published with
  | Except.error e => Except.error e
  | Except.ok published =>
    match validateUpdated filePath rawData.updated with
    | Except.error e => Except.error e
    | Except.ok updated =>
      Except.ok
        { blog := truthyOpt rawData.blog
          title := jsStringOr rawData.title
          description := jsStringOr rawData.description
          status := rawData.status
          published := published
          updated := updated
          category := jsStringOpt rawData.category
          tags := normalizeTags rawData.tags
          slug := jsStringOpt rawData.slug }

/-! ### The publication index (`createBlogSlugMap` and the read operations) -/

/-- A descriptor stored in the slug map (`BlogPostDescription`). -/
structure BlogPostDescription where
  slug : String
  filePath : String
  frontmatter : PostFrontmatter

/-- The slug map: a JS object with string keys, i.e. an association list in
insertion order with (by construction) unique keys. -/
abbrev SlugMap := List (String × BlogPostDescription)

/-- A document as seen by the scan: the absolute path produced by the walk,
the file content, and the external YAML parser outcome on that content. -/
structure VaultDoc where
  absPath : String
  content : String
  matterResult : Except String RawData

/-- JS property read `slugMap[slug]`: the (unique) binding, if any. -/
def lookupSlug : SlugMap → String → Option BlogPostDescription
  | [], _ => none
  | (k, d) :: rest, s => if k = s then some d else lookupSlug rest s

/-- Strict raw check `rawFrontmatter.status === "published"`. -/
def statusIsPublishedRaw : Option RawValue → Bool
  | some (RawValue.str s) => s == "published"
  | _ => false

/-- The visibility gate on raw metadata: `Boolean(raw.blog)` and, in
production only, `raw.status === "published"` on the raw value. -/
def gateRaw (raw : RawData) (isProd : Bool) : Bool :=
  truthyOpt raw.blog && (!isProd || statusIsPublishedRaw raw.status)

/-- `frontmatter.slug || createSlugNameFromFilePath(relativePath)`: the
explicit slug when it is a truthy (nonempty) string, else the derived one. -/
def resolvedSlug (fm : PostFrontmatter) (relativePath : String) : String :=
  match fm.slug with
  | some s => if s = "" then createSlugNameFromFilePath relativePath else s
  | none => createSlugNameFromFilePath relativePath

/-- The duplicate-slug build error message (grouped so that the quoted
`Duplicate slug "<slug>"` phrase is a whole subterm). -/
def dupMsg (slug existingFilePath markdownFile : String) : String :=
  ("Duplicate slug \"" ++ slug ++ "\"") ++ " found:\n  - " ++ existingFilePath ++
    "\n  - " ++ markdownFile ++
    "\n\nPlease ensure each post has a unique title or add a unique \x27slug\x27 field to the frontmatter."

/-- The map entry written for a candidate document with validated
frontmatter `fm`. -/
def entryFor (vaultPath : String) (d : VaultDoc) (fm : PostFrontmatter) :
    String × BlogPostDescription :=
  let relativePath := relativize vaultPath d.absPath
  let slug := resolvedSlug fm relativePath
  (slug, ⟨slug, relativePath, fm⟩)

/-- One iteration of the `createBlogSlugMap` loop on a single file:
extraction, the visibility gate, validation, slug resolution and the
collision check. -/
def stepDoc (vaultPath : String) (isProd : Bool) (slugMap : SlugMap)
    (d : VaultDoc) : Except String SlugMap :=
  match extractRawFrontmatter d.absPath d.content d.matterResult with
  | Except.error e => Except.error e
  | Except.ok rawFrontmatter =>
    if gateRaw rawFrontmatter isProd then
      match validateAndNormalizeFrontmatter rawFrontmatter d.absPath with
      | Except.error e => Except.error e
      | Except.ok frontmatter =>
        let relativePath := relativize vaultPath d.absPath
        let slug := resolvedSlug frontmatter relativePath
        match lookupSlug slugMap slug with
        | some existing => Except.error (dupMsg slug existing.filePath d.absPath)
        | none => Except.ok (slugMap ++ [(slug, ⟨slug, relativePath, frontmatter⟩)])
    else Except.ok slugMap

/-- The `createBlogSlugMap` loop with an extraction log: the second
component lists the files whose metadata was extracted, in order (the loop
stops at the first failing file). -/
def buildWithLog (vaultPath : String) (isProd : Bool) :
    List VaultDoc → SlugMap → Except String SlugMap × List String
  | [], slugMap => (Except.ok slugMap, [])
  | d :: ds, slugMap =>
    match stepDoc vaultPath isProd slugMap d with
    | Except.error e => (Except.error e, [d.absPath])
    | Except.ok slugMap' =>
      let r := buildWithLog vaultPath isProd ds slugMap'
      (r.1, d.absPath :: r.2)

/-- `createBlogSlugMap`: the built map, or the first error.  `vaultPath`
and the walked file list are parameters standing for
`path.join(process.cwd(), "vault")` and the `walkDirectoryWithFilter`
result. -/
def createBlogSlugMap (vaultPath : String) (isProd : Bool)
    (docs : List VaultDoc) : Except String SlugMap :=
  (buildWithLog vaultPath isProd docs []).1

/-- The sort comparator passed to `toSorted` in `getAllBlogPosts`, exactly
as written: a function of one parameter, so the second comparison argument
is ignored and the result is the first argument's timestamp (`getD 0`
stands for the unreachable NaN of an unvalidated date). -/
def blogCompare (a _b : BlogPostDescription) : Int :=
  (jsDateParse a.frontmatter.published).getD 0

/-- Insertion into a sorted prefix: the element goes before the first entry
against which the comparator returns a negative value. -/
def jsInsert {α : Type} (cmp : α → α → Int) (x : α) : List α → List α
  | [] => [x]
  | y :: ys => if cmp x y < 0 then x :: y :: ys else y :: jsInsert cmp x ys

/-- `Array.prototype.toSorted(cmp)` modelled as a stable insertion sort: it
agrees with the ECMAScript stable-sort contract for consistent comparators,
and with the binary insertion sort V8 runs on short arrays for the
inconsistent comparator above (an always-nonnegative comparator never
moves any element). -/
def jsToSorted {α : Type} (cmp : α → α → Int) (l : List α) : List α :=
  l.foldl (fun acc x => jsInsert cmp x acc) []

/-- `getAllBlogPosts` applied to a built map: `Object.values` in insertion
order, passed through `toSorted` with the comparator above. -/
def getAllBlogPosts (m : SlugMap) : List BlogPostDescription :=
  jsToSorted blogCompare (m.map Prod.snd)

/-- `getAllBlogSlugs` applied to a built map: `Object.keys`. -/
def getAllBlogSlugs (m : SlugMap) : List String :=
  m.map Prod.fst

/-- `findBlogPostBySlug` applied to a built map. -/
def findBlogPostBySlug (m : SlugMap) (slug : String) : Option BlogPostDescription :=
  lookupSlug m slug

/-! ### The process-wide cache (`_cachedSlugMap` and `getBlogSlugMap`)

The module-level mutable cache and the observable I/O effort are made
explicit: `walks` counts `walkDirectoryWithFilter` calls and `extracted`
records each `extractRawFrontmatter` call in order.  On a build failure the
assignment to the cache is skipped, exactly as a thrown `await` skips it. -/

/-- The module state: the cached map plus I/O counters. -/
structure CacheState where
  cache : Option SlugMap
  walks : Nat
  extracted : List String

/-- The fresh module state at process start. -/
def initialCacheState : CacheState :=
  ⟨none, 0, []⟩

/-- `getBlogSlugMap`: return the cached map, or walk the vault, build, and
cache the result on success. -/
def getBlogSlugMap (vaultPath : String) (isProd : Bool) (docs : List VaultDoc)
    (st : CacheState) : Except String SlugMap × CacheState :=
  match st.cache with
  | some m => (Except.ok m, st)
  | none =>
    let r := buildWithLog vaultPath isProd docs []
    match r.1 with
    | Except.ok m =>
      (Except.ok m, ⟨some m, st.walks + 1, st.extracted ++ r.2⟩)
    | Except.error e =>
      (Except.error e, ⟨none, st.walks + 1, st.extracted ++ r.2⟩)

/-- One of the three exported read operations. -/
inductive BlogOp where
  | posts
  | slugs
  | find (slug : String)

/-- The value a read operation observes. -/
inductive OpResult where
  | posts (l : List BlogPostDescription)
  | slugs (l : List String)
  | found (d : Option BlogPostDescription)
  | failed (e : String)

/-- The pure value of a read operation over a built map. -/
def evalOp (m : SlugMap) : BlogOp → OpResult
  | BlogOp.posts => OpResult.posts (getAllBlogPosts m)
  | BlogOp.slugs => OpResult.slugs (getAllBlogSlugs m)
  | BlogOp.find s => OpResult.found (findBlogPostBySlug m s)

/-- Run one exported read operation against the module state. -/
def runOp (vaultPath : String) (isProd : Bool) (docs : List VaultDoc)
    (op : BlogOp) (st : CacheState) : OpResult × CacheState :=
  let r := getBlogSlugMap vaultPath isProd docs st
  (match r.1 with
   | Except.ok m => evalOp m op
   | Except.error e => OpResult.failed e,
   r.2)

/-- Run a sequence of read operations, collecting the observed values. -/
def runOps (vaultPath : String) (isProd : Bool) (docs : List VaultDoc) :
    List BlogOp → CacheState → List OpResult × CacheState
  | [], st => ([], st)
  | op :: ops, st =>
    let r := runOp vaultPath isProd docs op st
    let rest := runOps vaultPath isProd docs ops r.2
    (r.1 :: rest.1, rest.2)

/-! ### Concrete documents used as witnesses and counterexamples -/

/-- A raw frontmatter block of a published blog post. -/
def rawPost (title pub : String) : RawData :=
  { emptyRawData with
      blog := some (RawValue.bool true)
      title := some (RawValue.str title)
      status := some (RawValue.str "published")
      published := some (RawValue.str pub) }

/-- First walked file: chronologically newer, alphabetically first title
(mirrors the sorting test in `vault-scanner.test.ts`). -/
def docNewer : VaultDoc :=
  ⟨"/project/vault/newer.md", "", Except.ok (rawPost "Alpha Post" "2024-01-20")⟩

/-- Second walked file: chronologically older, alphabetically last title. -/
def docOlder : VaultDoc :=
  ⟨"/project/vault/nested/older.md", "", Except.ok (rawPost "Zebra Post" "2024-01-10")⟩

/-- The raw metadata of a private note: `blog: false` with otherwise
garbage metadata. -/
def rawPrivate : RawData :=
  { emptyRawData with
      blog := some (RawValue.bool false)
      published := some (RawValue.str "invalid-date") }

/-- A private note carrying `rawPrivate`. -/
def docPrivate : VaultDoc :=
  ⟨"/project/vault/private.md", "", Except.ok rawPrivate⟩

/-- A candidate blog post whose `published` value cannot be parsed. -/
def rawNotADate : RawData :=
  { emptyRawData with
      blog := some (RawValue.bool true)
      published := some (RawValue.str "not-a-date") }

/-- A document whose YAML header does not parse at all: no `blog` field
exists for it, and gray-matter reports a parse error. -/
def docBadYaml : VaultDoc :=
  ⟨"/project/vault/bad.md", "---\nblog: [unclosed\n---\nbody",
   Except.error "unexpected end of the stream"⟩

/-- Whether a document passes the visibility gate: its header parsed and
the raw `blog`/`status` check succeeds.  A document whose header fails to
parse has no raw `blog` field, which therefore does not coerce to true. -/
def docIsCandidate (isProd : Bool) (d : VaultDoc) : Bool :=
  match d.matterResult with
  | Except.ok raw => gateRaw raw isProd
  | Except.error _ => false

/-- The formatted extraction error the build reports for `docBadYaml`. -/
def badYamlMsg : String :=
  match extractRawFrontmatter "/project/vault/bad.md" docBadYaml.content
      (Except.error "unexpected end of the stream") with
  | Except.error e => e
  | Except.ok _ => ""

/-- Raw frontmatter carrying an explicit `slug` field. -/
def rawWithSlug (pub slug : String) : RawData :=
  { emptyRawData with
      blog := some (RawValue.bool true)
      published := some (RawValue.str pub)
      slug := some (RawValue.str slug) }

/-- First document resolving to the explicit slug `duplicate-slug`. -/
def docDup1 : VaultDoc :=
  ⟨"/project/vault/first-post.md", "", Except.ok (rawWithSlug "2024-01-15" "duplicate-slug")⟩

/-- Second document resolving to the same explicit slug. -/
def docDup2 : VaultDoc :=
  ⟨"/project/vault/second-post.md", "", Except.ok (rawWithSlug "2024-01-16" "duplicate-slug")⟩

/-- The normalized frontmatter of `docDup1`. -/
def fmDup1 : PostFrontmatter :=
  ⟨true, "", "", none, "2024-01-15", none, none, none, some "duplicate-slug"⟩

/-- The normalized frontmatter of `docDup2`. -/
def fmDup2 : PostFrontmatter :=
  ⟨true, "", "", none, "2024-01-16", none, none, none, some "duplicate-slug"⟩

/-- The slug map state after processing `docDup1` alone. -/
def mapAfterDup1 : SlugMap :=
  [("duplicate-slug", ⟨"duplicate-slug", "first-post.md", fmDup1⟩)]

/-- A candidate whose `published` field is present but the empty string. -/
def rawEmptyPublished : RawData :=
  { emptyRawData with
      blog := some (RawValue.bool true)
      published := some (RawValue.str "") }

/-- The error the build reports for `rawEmptyPublished`. -/
def emptyPublishedMsg : String :=
  match validateAndNormalizeFrontmatter rawEmptyPublished "/project/vault/p.md" with
  | Except.error e => e
  | Except.ok _ => ""

/-- A candidate whose raw `slug` is the empty YAML list `[]`: truthy (every
array is), but its string coercion is the empty string. -/
def rawArrSlug : RawData :=
  { emptyRawData with
      blog := some (RawValue.bool true)
      published := some (RawValue.str "2024-01-15")
      slug := some (RawValue.arr []) }

/-- The document carrying `rawArrSlug`. -/
def docArrSlug : VaultDoc :=
  ⟨"/project/vault/My Post.md", "", Except.ok rawArrSlug⟩

/-- The normalized frontmatter of `rawArrSlug`. -/
def fmArrSlug : PostFrontmatter :=
  ⟨true, "", "", none, "2024-01-15", none, none, none, some ""⟩

/-- A candidate whose raw `slug` is present but the falsy empty string. -/
def rawFalsySlug : RawData :=
  { emptyRawData with
      blog := some (RawValue.bool true)
      published := some (RawValue.str "2024-01-15")
      slug := some (RawValue.str "") }

/-- The normalized frontmatter of `rawFalsySlug`: the slug is recorded as
absent. -/
def fmFalsySlug : PostFrontmatter :=
  ⟨true, "", "", none, "2024-01-15", none, none, none, none⟩

/-- The cached-scenario document of the caching test. -/
def docCached : VaultDoc :=
  ⟨"/project/vault/cached.md", "", Except.ok (rawPost "Cached Post" "2024-01-15")⟩

/-- The normalized frontmatter of `docCached`. -/
def fmCached : PostFrontmatter :=
  ⟨true, "Cached Post", "", some (RawValue.str "published"), "2024-01-15",
   none, none, none, none⟩

/-- The slug map built from `[docCached]`. -/
def mapCached : SlugMap :=
  [("cached", ⟨"cached", "cached.md", fmCached⟩)]

/-- The read-operation sequence of the caching test. -/
def cachedOps : List BlogOp :=
  [BlogOp.posts, BlogOp.slugs, BlogOp.find "cached"]

/-- The normalized frontmatter of `docNewer`. -/
def fmNewer : PostFrontmatter :=
  ⟨true, "Alpha Post", "", some (RawValue.str "published"), "2024-01-20",
   none, none, none, none⟩

/-- The slug map built from `[docNewer, docPrivate]`. -/
def mapNewerOnly : SlugMap :=
  [("newer", ⟨"newer", "newer.md", fmNewer⟩)]

/-! ### Substring lemmas -/

theorem strData_append (a b : String) : (a ++ b).data = a.data ++ b.data := by
  cases a; cases b; rfl

theorem listHasPre_refl (l : List Char) : listHasPre l l = true := by
  induction l with
  | nil => rfl
  | cons c cs ih => simp [listHasPre, ih]

theorem listHasPre_mono (p : List Char) :
    ∀ l r : List Char, listHasPre p l = true → listHasPre p (l ++ r) = true := by
  induction p with
  | nil => intro l r _; rfl
  | cons x xs ih =>
    intro l r h
    cases l with
    | nil => simp [listHasPre] at h
    | cons c cs =>
      simp only [listHasPre, Bool.and_eq_true] at h
      simp only [List.cons_append, listHasPre, Bool.and_eq_true]
      exact ⟨h.1, ih cs r h.2⟩

theorem listContainsSub_of_hasPre (p l : List Char) (h : listHasPre p l = true) :
    listContainsSub p l = true := by
  cases l with
  | nil => simpa [listContainsSub] using h
  | cons c cs => simp [listContainsSub, h]

theorem listContainsSub_append_left (p : List Char) :
    ∀ l r : List Char, listContainsSub p l = true → listContainsSub p (l ++ r) = true := by
  intro l
  induction l with
  | nil =>
    intro r h
    simp only [listContainsSub] at h
    exact listContainsSub_of_hasPre p r (listHasPre_mono p [] r h)
  | cons c cs ih =>
    intro r h
    simp only [listContainsSub, Bool.or_eq_true] at h
    rcases h with h | h
    · simp only [List.cons_append, listContainsSub, Bool.or_eq_true]
      exact Or.inl (listHasPre_mono p (c :: cs) r h)
    · simp only [List.cons_append, listContainsSub, Bool.or_eq_true]
      exact Or.inr (ih r h)

theorem listContainsSub_append_right (p : List Char) :
    ∀ l r : List Char, listContainsSub p r = true → listContainsSub p (l ++ r) = true := by
  intro l
  induction l with
  | nil => intro r h; simpa using h
  | cons c cs ih =>
    intro r h
    simp only [List.cons_append, listContainsSub, Bool.or_eq_true]
    exact Or.inr (ih r h)

theorem containsStr_self (s : String) : containsStr s s = true :=
  listContainsSub_of_hasPre s.data s.data (listHasPre_refl s.data)

theorem containsStr_append_left {l : String} (pat : String) (r : String)
    (h : containsStr l pat = true) : containsStr (l ++ r) pat = true := by
  unfold containsStr at h ⊢
  rw [strData_append]
  exact listContainsSub_append_left pat.data l.data r.data h

theorem containsStr_append_right (l : String) {r : String} (pat : String)
    (h : containsStr r pat = true) : containsStr (l ++ r) pat = true := by
  unfold containsStr at h ⊢
  rw [strData_append]
  exact listContainsSub_append_right pat.data l.data r.data h

theorem containsStr_pre (pat rest : String) : containsStr (pat ++ rest) pat = true :=
  containsStr_append_left pat rest (containsStr_self pat)

/-! ### Structural lemmas about the build fold -/

theorem stepDoc_skip (v : String) (p : Bool) (m : SlugMap) (d : VaultDoc)
    (raw : RawData) (hmr : d.matterResult = Except.ok raw)
    (hg : gateRaw raw p = false) : stepDoc v p m d = Except.ok m := by
  simp [stepDoc, extractRawFrontmatter, hmr, hg]

theorem stepDoc_ok_cases (v : String) (p : Bool) (m : SlugMap) (d : VaultDoc)
    (m' : SlugMap) (h : stepDoc v p m d = Except.ok m') :
    m' = m ∨ ∃ raw fm, d.matterResult = Except.ok raw ∧ gateRaw raw p = true ∧
      validateAndNormalizeFrontmatter raw d.absPath = Except.ok fm ∧
      lookupSlug m (resolvedSlug fm (relativize v d.absPath)) = none ∧
      m' = m ++ [entryFor v d fm] := by
  cases hmr : d.matterResult with
  | error e => simp [stepDoc, extractRawFrontmatter, hmr] at h
  | ok raw =>
    simp only [stepDoc, extractRawFrontmatter, hmr] at h
    by_cases hg : gateRaw raw p = true
    · rw [if_pos hg] at h
      cases hv : validateAndNormalizeFrontmatter raw d.absPath with
      | error e => rw [hv] at h; exact absurd h (by simp)
      | ok fm =>
        rw [hv] at h
        simp only at h
        cases hl : lookupSlug m (resolvedSlug fm (relativize v d.absPath)) with
        | some existing => rw [hl] at h; exact absurd h (by simp)
        | none =>
          rw [hl] at h
          refine Or.inr ⟨raw, fm, rfl, hg, hv, hl, ?_⟩
          have := h
          simp only [Except.ok.injEq] at this
          rw [← this]
          simp [entryFor]
    · rw [if_neg hg] at h
      simp only [Except.ok.injEq] at h
      exact Or.inl h.symm

theorem stepDoc_gated_ok (v : String) (p : Bool) (m : SlugMap) (d : VaultDoc)
    (m' : SlugMap) (raw : RawData) (hmr : d.matterResult = Except.ok raw)
    (hg : gateRaw raw p = true) (h : stepDoc v p m d = Except.ok m') :
    ∃ fm, validateAndNormalizeFrontmatter raw d.absPath = Except.ok fm ∧
      lookupSlug m (resolvedSlug fm (relativize v d.absPath)) = none ∧
      m' = m ++ [entryFor v d fm] := by
  simp only [stepDoc, extractRawFrontmatter, hmr, if_pos hg] at h
  cases hv : validateAndNormalizeFrontmatter raw d.absPath with
  | error e => rw [hv] at h; exact absurd h (by simp)
  | ok fm =>
    rw [hv] at h
    simp only at h
    cases hl : lookupSlug m (resolvedSlug fm (relativize v d.absPath)) with
    | some existing => rw [hl] at h; exact absurd h (by simp)
    | none =>
      rw [hl] at h
      simp only [Except.ok.injEq] at h
      exact ⟨fm, rfl, hl, by rw [← h]; simp [entryFor]⟩

theorem stepDoc_gated_dup (v : String) (p : Bool) (m : SlugMap) (d : VaultDoc)
    (raw : RawData) (fm : PostFrontmatter) (existing : BlogPostDescription)
    (hmr : d.matterResult = Except.ok raw) (hg : gateRaw raw p = true)
    (hv : validateAndNormalizeFrontmatter raw d.absPath = Except.ok fm)
    (hl : lookupSlug m (resolvedSlug fm (relativize v d.absPath)) = some existing) :
    stepDoc v p m d =
      Except.error (dupMsg (resolvedSlug fm (relativize v d.absPath))
        existing.filePath d.absPath) := by
  simp [stepDoc, extractRawFrontmatter, hmr, if_pos hg, hv, hl]

theorem build_cons_ok (v : String) (p : Bool) (d : VaultDoc) (ds : List VaultDoc)
    (m₀ m : SlugMap) (h : (buildWithLog v p (d :: ds) m₀).1 = Except.ok m) :
    ∃ m₁, stepDoc v p m₀ d = Except.ok m₁ ∧ (buildWithLog v p ds m₁).1 = Except.ok m := by
  cases hs : stepDoc v p m₀ d with
  | error e => simp [buildWithLog, hs] at h
  | ok m₁ =>
    simp only [buildWithLog, hs] at h
    exact ⟨m₁, rfl, h⟩

theorem buildWithLog_extends (v : String) (p : Bool) (ds : List VaultDoc) :
    ∀ m₀ m, (buildWithLog v p ds m₀).1 = Except.ok m → ∃ ext, m = m₀ ++ ext := by
  induction ds with
  | nil =>
    intro m₀ m h
    simp only [buildWithLog, Except.ok.injEq] at h
    exact ⟨[], by simp [← h]⟩
  | cons d rest ih =>
    intro m₀ m h
    obtain ⟨m₁, hs, hrest⟩ := build_cons_ok v p d rest m₀ m h
    obtain ⟨ext₁, hext₁⟩ := ih m₁ m hrest
    rcases stepDoc_ok_cases v p m₀ d m₁ hs with heq | ⟨raw, fm, _, _, _, _, heq⟩
    · exact ⟨ext₁, by rw [hext₁, heq]⟩
    · exact ⟨[entryFor v d fm] ++ ext₁, by rw [hext₁, heq, List.append_assoc]⟩

theorem build_mem_source (v : String) (p : Bool) (ds : List VaultDoc) :
    ∀ m₀ m, (buildWithLog v p ds m₀).1 = Except.ok m →
    ∀ e ∈ m, e ∈ m₀ ∨ ∃ d ∈ ds, ∃ raw fm, d.matterResult = Except.ok raw ∧
      gateRaw raw p = true ∧
      validateAndNormalizeFrontmatter raw d.absPath = Except.ok fm ∧
      e = entryFor v d fm := by
  induction ds with
  | nil =>
    intro m₀ m h e he
    simp only [buildWithLog, Except.ok.injEq] at h
    exact Or.inl (h ▸ he)
  | cons d rest ih =>
    intro m₀ m h e he
    obtain ⟨m₁, hs, hrest⟩ := build_cons_ok v p d rest m₀ m h
    rcases ih m₁ m hrest e he with hm₁ | ⟨d', hd', raw, fm, h1, h2, h3, h4⟩
    · rcases stepDoc_ok_cases v p m₀ d m₁ hs with heq | ⟨raw, fm, h1, h2, h3, _, heq⟩
      · exact Or.inl (heq ▸ hm₁)
      · rw [heq] at hm₁
        rcases List.mem_append.mp hm₁ with h' | h'
        · exact Or.inl h'
        · refine Or.inr ⟨d, List.mem_cons_self d rest, raw, fm, h1, h2, h3, ?_⟩
          simpa using h'
    · exact Or.inr ⟨d', List.mem_cons_of_mem d hd', raw, fm, h1, h2, h3, h4⟩

theorem build_gated_mem (v : String) (p : Bool) (ds : List VaultDoc) :
    ∀ m₀ m, (buildWithLog v p ds m₀).1 = Except.ok m →
    ∀ d ∈ ds, ∀ raw, d.matterResult = Except.ok raw → gateRaw raw p = true →
    ∃ fm, validateAndNormalizeFrontmatter raw d.absPath = Except.ok fm ∧
      entryFor v d fm ∈ m := by
  induction ds with
  | nil => intro m₀ m _ d hd; exact absurd hd (by simp)
  | cons d₀ rest ih =>
    intro m₀ m h d hd raw hmr hg
    obtain ⟨m₁, hs, hrest⟩ := build_cons_ok v p d₀ rest m₀ m h
    rcases List.mem_cons.mp hd with hd | hd
    · subst hd
      obtain ⟨fm, hv, _, heq⟩ := stepDoc_gated_ok v p m₀ d m₁ raw hmr hg hs
      obtain ⟨ext, hext⟩ := buildWithLog_extends v p rest m₁ m hrest
      refine ⟨fm, hv, ?_⟩
      rw [hext, heq]
      simp
    · exact ih m₁ m hrest d hd raw hmr hg

theorem lookupSlug_mem (m : SlugMap) (s : String) (d : BlogPostDescription)
    (h : lookupSlug m s = some d) : (s, d) ∈ m := by
  induction m with
  | nil => simp [lookupSlug] at h
  | cons e rest ih =>
    obtain ⟨k, v⟩ := e
    by_cases hk : k = s
    · subst hk
      have hv : v = d := by simpa [lookupSlug] using h
      subst hv
      exact List.mem_cons_self _ _
    · simp only [lookupSlug, if_neg hk] at h
      exact List.mem_cons_of_mem _ (ih h)

theorem lookupSlug_append (a b : SlugMap) (s : String) :
    lookupSlug (a ++ b) s =
      match lookupSlug a s with
      | some d => some d
      | none => lookupSlug b s := by
  induction a with
  | nil => simp [lookupSlug]
  | cons e rest ih =>
    obtain ⟨k, v⟩ := e
    by_cases hk : k = s
    · subst hk; simp [lookupSlug]
    · simp [lookupSlug, hk, ih]

theorem buildWithLog_append (v : String) (p : Bool) (as bs : List VaultDoc) :
    ∀ m₀, (buildWithLog v p (as ++ bs) m₀).1 =
      match (buildWithLog v p as m₀).1 with
      | Except.ok m₁ => (buildWithLog v p bs m₁).1
      | Except.error e => Except.error e := by
  induction as with
  | nil => intro m₀; simp [buildWithLog]
  | cons a rest ih =>
    intro m₀
    cases hs : stepDoc v p m₀ a with
    | error e => simp [buildWithLog, hs]
    | ok m₁ => simp [buildWithLog, hs, ih m₁]

theorem buildWithLog_ok_log (v : String) (p : Bool) (ds : List VaultDoc) :
    ∀ m₀ m, (buildWithLog v p ds m₀).1 = Except.ok m →
      (buildWithLog v p ds m₀).2 = ds.map VaultDoc.absPath := by
  induction ds with
  | nil => intro m₀ m _; rfl
  | cons d rest ih =>
    intro m₀ m h
    cases hs : stepDoc v p m₀ d with
    | error e => simp [buildWithLog, hs] at h
    | ok m₁ =>
      simp only [buildWithLog, hs] at h ⊢
      simp [ih m₁ m h]

theorem runOps_cached (v : String) (p : Bool) (docs : List VaultDoc)
    (ops : List BlogOp) (m : SlugMap) (w : Nat) (ex : List String) :
    runOps v p docs ops ⟨some m, w, ex⟩ = (ops.map (evalOp m), ⟨some m, w, ex⟩) := by
  induction ops with
  | nil => rfl
  | cons op rest ih =>
    simp [runOps, runOp, getBlogSlugMap, ih]

/-! ### Inversion lemmas for the validator -/

theorem validateDate_ok_eq (fp fn : String) (v : RawValue) (s : String)
    (h : validateDate fp fn (some v) = Except.ok s) : s = jsString v := by
  by_cases ht : truthyV v = true
  · simp only [validateDate, if_pos ht] at h
    cases hp : jsDateParse (jsString v) with
    | none => rw [hp] at h; exact absurd h (by simp)
    | some t => rw [hp] at h; simpa using h.symm
  · simp only [validateDate, if_neg ht] at h
    exact absurd h (by simp)

theorem normalize_ok_inv (raw : RawData) (fp : String) (fm : PostFrontmatter)
    (hok : validateAndNormalizeFrontmatter raw fp = Except.ok fm) :
    ∃ published updated,
      validateDate fp "published" raw.published = Except.ok published ∧
      validateUpdated fp raw.updated = Except.ok updated ∧
      fm = { blog := truthyOpt raw.blog, title := jsStringOr raw.title,
             description := jsStringOr raw.description, status := raw.status,
             published := published, updated := updated,
             category := jsStringOpt raw.category, tags := normalizeTags raw.tags,
             slug := jsStringOpt raw.slug } := by
  unfold validateAndNormalizeFrontmatter at hok
  cases h1 : validateDate fp "published" raw.published with
  | error e => rw [h1] at hok; exact absurd hok (by simp)
  | ok published =>
    rw [h1] at hok
    cases h2 : validateUpdated fp raw.updated with
    | error e => rw [h2] at hok; exact absurd hok (by simp)
    | ok updated =>
      rw [h2] at hok
      simp only [Except.ok.injEq] at hok
      exact ⟨published, updated, rfl, rfl, hok.symm⟩

theorem normalize_missing (raw : RawData) (fp : String)
    (hfalsy : truthyOpt raw.published = false) :
    validateAndNormalizeFrontmatter raw fp = Except.error (msgMissing fp "published") := by
  have hvd : validateDate fp "published" raw.published =
      Except.error (msgMissing fp "published") := by
    cases hp : raw.published with
    | none => rfl
    | some v =>
      have ht : truthyV v = false := by rw [hp] at hfalsy; exact hfalsy
      simp [validateDate, ht]
  simp [validateAndNormalizeFrontmatter, hvd]

theorem normalize_invalid (raw : RawData) (fp : String) (v : RawValue)
    (hp : raw.published = some v) (ht : truthyV v = true)
    (hparse : jsDateParse (jsString v) = none) :
    validateAndNormalizeFrontmatter raw fp =
      Except.error (msgInvalid fp "published" (jsString v)) := by
  have hvd : validateDate fp "published" raw.published =
      Except.error (msgInvalid fp "published" (jsString v)) := by
    simp [validateDate, hp, ht, hparse]
  simp [validateAndNormalizeFrontmatter, hvd]

/-! ### Containment facts about the validator messages -/

theorem msgMissing_contains_field (fp : String) :
    containsStr (msgMissing fp "published") "missing required field: published" = true := by
  show containsStr ("Blog post \"" ++ fp ++ "\" is " ++
    ("missing required field: " ++ "published")) "missing required field: published" = true
  exact containsStr_append_right _ _ (containsStr_self _)

theorem msgMissing_contains_path (fp fn : String) :
    containsStr (msgMissing fp fn) fp = true := by
  unfold msgMissing
  repeat
    first
      | exact containsStr_append_right _ _ (containsStr_self _)
      | apply containsStr_append_left

theorem msgInvalid_contains_field (fp ds : String) :
    containsStr (msgInvalid fp "published" ds) "invalid published" = true := by
  show containsStr ("Blog post \"" ++ fp ++ "\" has " ++ ("invalid " ++ "published") ++
    ": \"" ++ ds ++ "\". Please use a valid date format.") "invalid published" = true
  repeat
    first
      | exact containsStr_append_right _ _ (containsStr_self _)
      | apply containsStr_append_left

theorem msgInvalid_contains_path (fp fn ds : String) :
    containsStr (msgInvalid fp fn ds) fp = true := by
  unfold msgInvalid
  repeat
    first
      | exact containsStr_append_right _ _ (containsStr_self _)
      | apply containsStr_append_left

/-! ### Claim C5 -/

/-- C5 (amended): for every candidate document, validation of `published`
fails with a message containing "missing required field: published" and the
file path when the field is absent OR present but falsy (empty string, 0,
false); fails with a message containing "invalid published" and the file
path when the field is truthy and its string coercion does not parse as a
date; and otherwise preserves the string-coerced value verbatim
("2024-01-15T10:30:00Z" and "2024/01/16" both succeed unchanged, while
"not-a-date" does not parse). -/
theorem C5_published_validation (raw : RawData) (filePath : String) :
    (truthyOpt raw.published = false →
      ∃ e, validateAndNormalizeFrontmatter raw filePath = Except.error e ∧
        containsStr e "missing required field: published" = true ∧
        containsStr e filePath = true) ∧
    (∀ v, raw.published = some v → truthyV v = true →
      jsDateParse (jsString v) = none →
      ∃ e, validateAndNormalizeFrontmatter raw filePath = Except.error e ∧
        containsStr e "invalid published" = true ∧
        containsStr e filePath = true) ∧
    (∀ v fm, raw.published = some v →
      validateAndNormalizeFrontmatter raw filePath = Except.ok fm →
      fm.published = jsString v) ∧
    validateDate filePath "published" (some (RawValue.str "2024-01-15T10:30:00Z")) =
      Except.ok "2024-01-15T10:30:00Z" ∧
    validateDate filePath "published" (some (RawValue.str "2024/01/16")) =
      Except.ok "2024/01/16" ∧
    jsDateParse "not-a-date" = none := by
  refine ⟨?_, ?_, ?_, rfl, rfl, rfl⟩
  · intro hfalsy
    exact ⟨_, normalize_missing raw filePath hfalsy, msgMissing_contains_field filePath,
      msgMissing_contains_path filePath "published"⟩
  · intro v hp ht hparse
    exact ⟨_, normalize_invalid raw filePath v hp ht hparse,
      msgInvalid_contains_field filePath (jsString v),
      msgInvalid_contains_path filePath "published" (jsString v)⟩
  · intro v fm hp hok
    obtain ⟨published, updated, h1, _, hfm⟩ := normalize_ok_inv raw filePath fm hok
    rw [hp] at h1
    have hpv := validateDate_ok_eq filePath "published" v published h1
    subst hfm
    exact hpv

/-- C5 counterexample to the claim as stated: `published: ""` is present,
its string coercion does not parse as a date, yet the reported error is the
"missing required field" one and does not contain "invalid published". -/
theorem C5_falsy_published_msg :
    rawEmptyPublished.published = some (RawValue.str "") ∧
    jsDateParse (jsString (RawValue.str "")) = none ∧
    validateAndNormalizeFrontmatter rawEmptyPublished "/project/vault/p.md" =
      Except.error emptyPublishedMsg ∧
    containsStr emptyPublishedMsg "invalid published" = false ∧
    containsStr emptyPublishedMsg "missing required field: published" = true := by
  refine ⟨rfl, rfl, rfl, by decide, by decide⟩

/-- C5 witness: the amended theorem applied at a concrete candidate whose
`published` is the unparseable string "not-a-date". -/
theorem C5_published_validation_w :
    rawNotADate.published = some (RawValue.str "not-a-date") ∧
    truthyV (RawValue.str "not-a-date") = true ∧
    jsDateParse (jsString (RawValue.str "not-a-date")) = none ∧
    (∃ e, validateAndNormalizeFrontmatter rawNotADate "/project/vault/x.md" = Except.error e ∧
      containsStr e "invalid published" = true ∧
      containsStr e "/project/vault/x.md" = true) :=
  ⟨rfl, rfl, rfl,
    (C5_published_validation rawNotADate "/project/vault/x.md").2.1
      (RawValue.str "not-a-date") rfl rfl rfl⟩

/-! ### Claim C8 -/

/-- C8: for every document whose metadata header fails to parse, the
extractor raises an error whose message includes the file path, the
underlying parser error, and the numbered preview of the first 10 lines of
the content. -/
theorem C8_extract_error_context (markdownFilePath content err : String) :
    ∃ msg,
      extractRawFrontmatter markdownFilePath content (Except.error err) =
        Except.error msg ∧
      containsStr msg markdownFilePath = true ∧
      containsStr msg err = true ∧
      containsStr msg (previewOf content) = true := by
  refine ⟨_, rfl, ?_, ?_, ?_⟩ <;>
    repeat
      first
        | exact containsStr_append_right _ _ (containsStr_self _)
        | apply containsStr_append_left

/-! ### Claim C2 -/

theorem build_skip_doc (v : String) (p : Bool) (d : VaultDoc) (raw : RawData)
    (hmr : d.matterResult = Except.ok raw) (hg : gateRaw raw p = false)
    (pre post : List VaultDoc) :
    ∀ m₀, (buildWithLog v p (pre ++ d :: post) m₀).1 =
      (buildWithLog v p (pre ++ post) m₀).1 := by
  induction pre with
  | nil =>
    intro m₀
    simp [buildWithLog, stepDoc_skip v p m₀ d raw hmr hg]
  | cons a rest ih =>
    intro m₀
    cases hs : stepDoc v p m₀ a with
    | error e => simp [buildWithLog, hs]
    | ok m₁ => simp [buildWithLog, hs, ih m₁]

/-- C2 (amended): for every document whose metadata header parses and whose
raw `blog` field does not coerce to true (or, in production, whose raw
`status` is not exactly "published"), the index build skips the document
entirely: the build result is the same as if the document were not in the
vault, so no validation error can arise from its malformed field values.
(A document whose header fails to parse aborts the build regardless of the
gate, since extraction precedes the gate — see the counterexample.) -/
theorem C2_gated_out_doc_skipped (v : String) (p : Bool) (d : VaultDoc)
    (raw : RawData) (hmr : d.matterResult = Except.ok raw)
    (hg : gateRaw raw p = false) (pre post : List VaultDoc) :
    createBlogSlugMap v p (pre ++ d :: post) = createBlogSlugMap v p (pre ++ post) :=
  build_skip_doc v p d raw hmr hg pre post []

/-- C2 counterexample to the claim as stated: a document with an
unparseable metadata header certainly has no raw `blog` field coercing to
true, yet the build does not skip it — it aborts with the extraction error,
while the empty vault builds fine. -/
theorem C2_unparsed_doc_not_inert :
    docIsCandidate false docBadYaml = false ∧
    createBlogSlugMap "/project/vault" false [docBadYaml] = Except.error badYamlMsg ∧
    createBlogSlugMap "/project/vault" false [] = Except.ok [] :=
  ⟨rfl, rfl, rfl⟩

/-- C2 witness: the amended theorem applied to a private note with garbage
metadata, inserted after a normal blog post. -/
theorem C2_gated_out_doc_skipped_w :
    docPrivate.matterResult = Except.ok rawPrivate ∧
    gateRaw rawPrivate false = false ∧
    createBlogSlugMap "/project/vault" false [docNewer, docPrivate] =
      createBlogSlugMap "/project/vault" false [docNewer] :=
  ⟨rfl, rfl,
    C2_gated_out_doc_skipped "/project/vault" false docPrivate rawPrivate rfl rfl
      [docNewer] []⟩

/-! ### Claim C10 -/

/-- C10: for every candidate document whose raw `slug` field is present but
coerces falsy (for example the empty string), normalization records the
slug as absent and slug resolution falls back to the filename-derived slug. -/
theorem C10_falsy_slug_fallback (raw : RawData) (v : RawValue) (fp : String)
    (fm : PostFrontmatter) (hpres : raw.slug = some v)
    (hfalsy : truthyV v = false)
    (hok : validateAndNormalizeFrontmatter raw fp = Except.ok fm) :
    fm.slug = none ∧
    ∀ rel, resolvedSlug fm rel = createSlugNameFromFilePath rel := by
  obtain ⟨published, updated, _, _, hfm⟩ := normalize_ok_inv raw fp fm hok
  have hslug : fm.slug = none := by
    subst hfm
    simp [jsStringOpt, hpres, hfalsy]
  exact ⟨hslug, fun rel => by simp [resolvedSlug, hslug]⟩

/-- C10 witness: a candidate with `slug: ""` falls back to the
filename-derived slug. -/
theorem C10_falsy_slug_fallback_w :
    rawFalsySlug.slug = some (RawValue.str "") ∧
    truthyV (RawValue.str "") = false ∧
    fmFalsySlug.slug = none ∧
    resolvedSlug fmFalsySlug "My Post.md" = createSlugNameFromFilePath "My Post.md" :=
  ⟨rfl, rfl,
    (C10_falsy_slug_fallback rawFalsySlug (RawValue.str "") "/project/vault/p.md"
      fmFalsySlug rfl rfl rfl).1,
    (C10_falsy_slug_fallback rawFalsySlug (RawValue.str "") "/project/vault/p.md"
      fmFalsySlug rfl rfl rfl).2 "My Post.md"⟩

/-! ### Claim C6 -/

/-- C6 (amended): the resolved slug equals the explicit normalized
frontmatter slug verbatim when one is carried and it is nonempty; when the
normalized slug is absent or the empty string, it is the filename-derived
slug (base name, extension stripped, maximal non-alphanumeric runs replaced
by single hyphens, lowercased — so `My Cool Post!.md` derives
"my-cool-post-"). -/
theorem C6_slug_resolution (fm : PostFrontmatter) (rel : String) :
    (∀ s, fm.slug = some s → s ≠ "" → resolvedSlug fm rel = s) ∧
    (fm.slug = none → resolvedSlug fm rel = createSlugNameFromFilePath rel) ∧
    (fm.slug = some "" → resolvedSlug fm rel = createSlugNameFromFilePath rel) ∧
    createSlugNameFromFilePath "My Cool Post!.md" = "my-cool-post-" := by
  refine ⟨?_, ?_, ?_, rfl⟩
  · intro s hs hne
    simp [resolvedSlug, hs, hne]
  · intro hs
    simp [resolvedSlug, hs]
  · intro hs
    simp [resolvedSlug, hs]

/-- C6 counterexample to the claim as stated: a raw `slug: []` is truthy,
so the normalized frontmatter carries the explicit slug `""`, yet the
resolved slug is the filename-derived "my-post", not the carried value. -/
theorem C6_empty_explicit_slug :
    rawArrSlug.slug = some (RawValue.arr []) ∧
    truthyV (RawValue.arr []) = true ∧
    validateAndNormalizeFrontmatter rawArrSlug "/project/vault/My Post.md" =
      Except.ok fmArrSlug ∧
    fmArrSlug.slug = some "" ∧
    resolvedSlug fmArrSlug "My Post.md" = "my-post" ∧
    ("my-post" : String) ≠ "" :=
  ⟨rfl, rfl, rfl, rfl, rfl, by decide⟩

/-- C6 witness: a nonempty explicit slug is used verbatim, and the claimed
derivation example holds. -/
theorem C6_slug_resolution_w :
    fmDup1.slug = some "duplicate-slug" ∧
    ("duplicate-slug" : String) ≠ "" ∧
    resolvedSlug fmDup1 "first-post.md" = "duplicate-slug" ∧
    createSlugNameFromFilePath "My Cool Post!.md" = "my-cool-post-" :=
  ⟨rfl, by decide,
    (C6_slug_resolution fmDup1 "first-post.md").1 "duplicate-slug" rfl (by decide),
    (C6_slug_resolution fmDup1 "first-post.md").2.2.2⟩

/-! ### Claim C3 -/

/-- C3: for every document in a vault whose index build succeeds, the
document yields an entry in the publication index (an entry whose stored
file path is the document's vault-relative path) if and only if its raw
`blog` field coerces to true and (the environment is not production or its
raw `status` is exactly "published").  The distinct-relative-path
hypothesis reflects that a directory walk never yields the same file
twice. -/
theorem C3_inclusion_iff_gate (v : String) (p : Bool) (docs : List VaultDoc)
    (m : SlugMap)
    (hnodup : (docs.map (fun d => relativize v d.absPath)).Nodup)
    (hok : createBlogSlugMap v p docs = Except.ok m)
    (d : VaultDoc) (hd : d ∈ docs) (raw : RawData)
    (hmr : d.matterResult = Except.ok raw) :
    (∃ s desc, (s, desc) ∈ m ∧ desc.filePath = relativize v d.absPath) ↔
      gateRaw raw p = true := by
  constructor
  · rintro ⟨s, desc, hmem, hfp⟩
    rcases build_mem_source v p docs [] m hok (s, desc) hmem with
      h0 | ⟨d', hd', raw', fm', h1, h2, _, h4⟩
    · simp at h0
    · have hdesc : desc = (entryFor v d' fm').2 := congrArg Prod.snd h4
      have hfp' : desc.filePath = relativize v d'.absPath := by
        rw [hdesc]; rfl
      have heq : relativize v d'.absPath = relativize v d.absPath := by
        rw [← hfp', hfp]
      have hdd : d' = d := List.inj_on_of_nodup_map hnodup hd' hd heq
      subst hdd
      rw [hmr] at h1
      injection h1 with h1
      rw [h1]
      exact h2
  · intro hg
    obtain ⟨fm, _, hmem⟩ := build_gated_mem v p docs [] m hok d hd raw hmr hg
    exact ⟨(entryFor v d fm).1, (entryFor v d fm).2, by simpa using hmem, rfl⟩

/-- C3 witness: in a vault with one published post and one private note,
the published post has an entry and the gate evaluates accordingly. -/
theorem C3_inclusion_iff_gate_w :
    ([docNewer, docPrivate].map
      (fun d => relativize "/project/vault" d.absPath)).Nodup ∧
    docNewer.matterResult = Except.ok (rawPost "Alpha Post" "2024-01-20") ∧
    ((∃ s desc, (s, desc) ∈ mapNewerOnly ∧
        desc.filePath = relativize "/project/vault" docNewer.absPath) ↔
      gateRaw (rawPost "Alpha Post" "2024-01-20") false = true) :=
  ⟨by decide, rfl,
    C3_inclusion_iff_gate "/project/vault" false [docNewer, docPrivate] mapNewerOnly
      (by decide) rfl docNewer (by simp) (rawPost "Alpha Post" "2024-01-20") rfl⟩

/-! ### Claim C9 -/

theorem listHasPre_length (p : List Char) :
    ∀ l, listHasPre p l = true → p.length ≤ l.length := by
  induction p with
  | nil => intro l _; simp
  | cons c cs ih =>
    intro l h
    cases l with
    | nil => simp [listHasPre] at h
    | cons x xs =>
      simp only [listHasPre, Bool.and_eq_true] at h
      simpa using Nat.succ_le_succ (ih xs h.2)

theorem strDrop_ne_of_pre (s pre : String)
    (hp : strStartsWith s (pre ++ "/") = true) :
    strDrop s (pre.length + 1) ≠ s := by
  intro he
  have hd : s.data.drop (pre.length + 1) = s.data := congrArg String.data he
  have hlen := listHasPre_length (pre ++ "/").data s.data hp
  have h1 : (pre ++ "/").data.length = pre.data.length + 1 := by
    rw [strData_append]
    simp
  have h2 := congrArg List.length hd
  rw [List.length_drop] at h2
  rw [h1] at hlen
  have hpl : pre.length = pre.data.length := rfl
  rw [hpl] at h2
  omega

/-- C9: in every successfully built index, the descriptor stored at slug
key `s` has `slug = s`, and its `filePath` is the source document's
vault-relative path — the absolute scan path with the vault prefix
stripped, never the absolute path itself. -/
theorem C9_entry_invariant (v : String) (p : Bool) (docs : List VaultDoc)
    (m : SlugMap) (hok : createBlogSlugMap v p docs = Except.ok m)
    (hpref : ∀ d ∈ docs, strStartsWith d.absPath (v ++ "/") = true) :
    ∀ s desc, lookupSlug m s = some desc →
      desc.slug = s ∧
      ∃ d ∈ docs, desc.filePath = strDrop d.absPath (v.length + 1) ∧
        desc.filePath ≠ d.absPath := by
  intro s desc hl
  have hmem := lookupSlug_mem m s desc hl
  rcases build_mem_source v p docs [] m hok (s, desc) hmem with
    h0 | ⟨d', hd', raw', fm', _, _, _, h4⟩
  · simp at h0
  · have hs : s = (entryFor v d' fm').1 := congrArg Prod.fst h4
    have hdesc : desc = (entryFor v d' fm').2 := congrArg Prod.snd h4
    have hrel : relativize v d'.absPath = strDrop d'.absPath (v.length + 1) := by
      unfold relativize
      rw [if_pos (hpref d' hd')]
    constructor
    · rw [hdesc, hs]; rfl
    · refine ⟨d', hd', ?_, ?_⟩
      · rw [hdesc]
        exact hrel
      · rw [hdesc]
        show relativize v d'.absPath ≠ d'.absPath
        rw [hrel]
        exact strDrop_ne_of_pre d'.absPath v (hpref d' hd')

/-- C9 witness: the invariant instantiated on the single-post vault. -/
theorem C9_entry_invariant_w :
    lookupSlug mapNewerOnly "newer" =
      some (BlogPostDescription.mk "newer" "newer.md" fmNewer) ∧
    (BlogPostDescription.mk "newer" "newer.md" fmNewer).slug = "newer" ∧
    ∃ d ∈ [docNewer],
      (BlogPostDescription.mk "newer" "newer.md" fmNewer).filePath =
        strDrop d.absPath ("/project/vault".length + 1) ∧
      (BlogPostDescription.mk "newer" "newer.md" fmNewer).filePath ≠ d.absPath :=
  ⟨rfl,
    (C9_entry_invariant "/project/vault" false [docNewer] mapNewerOnly rfl (by decide)
      "newer" (BlogPostDescription.mk "newer" "newer.md" fmNewer) rfl).1,
    (C9_entry_invariant "/project/vault" false [docNewer] mapNewerOnly rfl (by decide)
      "newer" (BlogPostDescription.mk "newer" "newer.md" fmNewer) rfl).2⟩

/-! ### Claim C4 -/

/-- C4: whenever two candidate documents of a build resolve to the same
slug and the build reaches the second of them (everything before it
processed without error), the build fails with an error whose message
contains `Duplicate slug "<slug>"`, the first document's stored (relative)
file path and the second document's absolute file path; no second entry is
written at the existing key. -/
theorem C4_duplicate_slug_fails (v : String) (p : Bool)
    (pre mid post : List VaultDoc) (d₁ d₂ : VaultDoc)
    (raw₁ raw₂ : RawData) (fm₁ fm₂ : PostFrontmatter) (m₁ : SlugMap)
    (h1mr : d₁.matterResult = Except.ok raw₁) (h1g : gateRaw raw₁ p = true)
    (h1v : validateAndNormalizeFrontmatter raw₁ d₁.absPath = Except.ok fm₁)
    (h2mr : d₂.matterResult = Except.ok raw₂) (h2g : gateRaw raw₂ p = true)
    (h2v : validateAndNormalizeFrontmatter raw₂ d₂.absPath = Except.ok fm₂)
    (hslug : resolvedSlug fm₂ (relativize v d₂.absPath) =
      resolvedSlug fm₁ (relativize v d₁.absPath))
    (hreach : (buildWithLog v p (pre ++ d₁ :: mid) []).1 = Except.ok m₁) :
    ∃ e, createBlogSlugMap v p (pre ++ d₁ :: (mid ++ d₂ :: post)) = Except.error e ∧
      containsStr e ("Duplicate slug \"" ++
        resolvedSlug fm₁ (relativize v d₁.absPath) ++ "\"") = true ∧
      containsStr e (relativize v d₁.absPath) = true ∧
      containsStr e d₂.absPath = true := by
  have hassoc : pre ++ d₁ :: (mid ++ d₂ :: post) = (pre ++ d₁ :: mid) ++ (d₂ :: post) := by
    simp
  cases hpre : (buildWithLog v p pre []).1 with
  | error e =>
    have hsplit := buildWithLog_append v p pre (d₁ :: mid) []
    rw [hpre] at hsplit
    rw [hsplit] at hreach
    exact absurd hreach (by simp)
  | ok mPre =>
    have hsplit := buildWithLog_append v p pre (d₁ :: mid) []
    rw [hpre] at hsplit
    rw [hsplit] at hreach
    obtain ⟨mA, hstep1, hmid⟩ := build_cons_ok v p d₁ mid mPre m₁ hreach
    obtain ⟨fm₁', hv1', hlk, hmA⟩ := stepDoc_gated_ok v p mPre d₁ mA raw₁ h1mr h1g hstep1
    rw [h1v] at hv1'
    injection hv1' with hfm1
    subst hfm1
    obtain ⟨ext, hext⟩ := buildWithLog_extends v p mid mA m₁ hmid
    have hlkm₁ : lookupSlug m₁ (resolvedSlug fm₁ (relativize v d₁.absPath)) =
        some (entryFor v d₁ fm₁).2 := by
      rw [hext, hmA, List.append_assoc, lookupSlug_append, hlk]
      simp [lookupSlug, entryFor]
    have hstep2 := stepDoc_gated_dup v p m₁ d₂ raw₂ fm₂ (entryFor v d₁ fm₁).2
      h2mr h2g h2v (by rw [hslug]; exact hlkm₁)
    have hfp : (entryFor v d₁ fm₁).2.filePath = relativize v d₁.absPath := rfl
    rw [hfp] at hstep2
    have hs2 : (buildWithLog v p (pre ++ d₁ :: mid) []).1 = Except.ok m₁ := by
      rw [hsplit]; exact hreach
    have hfinal : createBlogSlugMap v p (pre ++ d₁ :: (mid ++ d₂ :: post)) =
        Except.error (dupMsg (resolvedSlug fm₂ (relativize v d₂.absPath))
          (relativize v d₁.absPath) d₂.absPath) := by
      show (buildWithLog v p (pre ++ d₁ :: (mid ++ d₂ :: post)) []).1 = _
      rw [hassoc, buildWithLog_append, hs2]
      simp [buildWithLog, hstep2]
    rw [hslug] at hfinal
    refine ⟨_, hfinal, ?_, ?_, ?_⟩ <;>
      unfold dupMsg <;>
        repeat
          first
            | exact containsStr_self _
            | exact containsStr_append_right _ _ (containsStr_self _)
            | apply containsStr_append_left

/-- C4 witness: two candidates with the explicit slug `duplicate-slug`
make the build fail with the expected message. -/
theorem C4_duplicate_slug_fails_w :
    resolvedSlug fmDup2 (relativize "/project/vault" docDup2.absPath) =
      resolvedSlug fmDup1 (relativize "/project/vault" docDup1.absPath) ∧
    ∃ e, createBlogSlugMap "/project/vault" false [docDup1, docDup2] = Except.error e ∧
      containsStr e ("Duplicate slug \"" ++
        resolvedSlug fmDup1 (relativize "/project/vault" docDup1.absPath) ++ "\"") = true ∧
      containsStr e (relativize "/project/vault" docDup1.absPath) = true ∧
      containsStr e docDup2.absPath = true :=
  ⟨rfl,
    C4_duplicate_slug_fails "/project/vault" false [] [] [] docDup1 docDup2
      (rawWithSlug "2024-01-15" "duplicate-slug")
      (rawWithSlug "2024-01-16" "duplicate-slug")
      fmDup1 fmDup2 mapAfterDup1 rfl rfl rfl rfl rfl rfl rfl rfl⟩

/-! ### Claim C7 -/

/-- C7: when the build succeeds, any nonempty sequence of calls to the
three read operations triggers exactly one directory walk, extracts each
walked file's metadata exactly once, leaves the built map memoized, and
every call observes the value computed from that single map. -/
theorem C7_build_once (v : String) (p : Bool) (docs : List VaultDoc) (m : SlugMap)
    (hok : createBlogSlugMap v p docs = Except.ok m)
    (ops : List BlogOp) (hne : ops ≠ []) :
    (runOps v p docs ops initialCacheState).2.walks = 1 ∧
    (runOps v p docs ops initialCacheState).2.extracted = docs.map VaultDoc.absPath ∧
    (runOps v p docs ops initialCacheState).2.cache = some m ∧
    (runOps v p docs ops initialCacheState).1 = ops.map (evalOp m) := by
  cases ops with
  | nil => exact absurd rfl hne
  | cons op rest =>
    have hbl : (buildWithLog v p docs []).1 = Except.ok m := hok
    have hlog := buildWithLog_ok_log v p docs [] m hbl
    have hfirst : runOp v p docs op initialCacheState =
        (evalOp m op, ⟨some m, 1, docs.map VaultDoc.absPath⟩) := by
      simp [runOp, getBlogSlugMap, initialCacheState, hbl, hlog]
    have hall : runOps v p docs (op :: rest) initialCacheState =
        (evalOp m op :: rest.map (evalOp m),
         ⟨some m, 1, docs.map VaultDoc.absPath⟩) := by
      simp [runOps, hfirst, runOps_cached]
    rw [hall]
    exact ⟨rfl, rfl, rfl, rfl⟩

/-- C7 witness: the caching-test scenario — `getAllBlogPosts`, then
`getAllBlogSlugs`, then `findBlogPostBySlug "cached"` — performs a single
walk and a single extraction of the one file. -/
theorem C7_build_once_w :
    createBlogSlugMap "/project/vault" false [docCached] = Except.ok mapCached ∧
    (runOps "/project/vault" false [docCached] cachedOps initialCacheState).2.walks = 1 ∧
    (runOps "/project/vault" false [docCached] cachedOps initialCacheState).2.extracted =
      [docCached].map VaultDoc.absPath ∧
    (runOps "/project/vault" false [docCached] cachedOps initialCacheState).1 =
      cachedOps.map (evalOp mapCached) :=
  ⟨rfl,
    (C7_build_once "/project/vault" false [docCached] mapCached rfl cachedOps
      (List.cons_ne_nil _ _)).1,
    (C7_build_once "/project/vault" false [docCached] mapCached rfl cachedOps
      (List.cons_ne_nil _ _)).2.1,
    (C7_build_once "/project/vault" false [docCached] mapCached rfl cachedOps
      (List.cons_ne_nil _ _)).2.2.2⟩

/-! ### Claim C1 -/

/-- C1 (evaluation at the failing input): the comparator passed to
`toSorted` takes a single parameter and returns the first argument's
(always positive) timestamp, never a negative or zero three-way value, so
the sort never reorders anything.  On the repository's own sorting-test
vault — walk order `newer.md` ("Alpha Post", published 2024-01-20) then
`nested/older.md` ("Zebra Post", published 2024-01-10) — `getAllBlogPosts`
returns the posts still in walk order, with the later-published "Alpha
Post" first, although the earlier date 2024-01-10 precedes 2024-01-20; the
repository test expects "Zebra Post" first. -/
theorem C1_posts_not_sorted_ascending :
    (createBlogSlugMap "/project/vault" false [docNewer, docOlder]).map
        (fun m => (getAllBlogPosts m).map (fun d => d.frontmatter.title)) =
      Except.ok ["Alpha Post", "Zebra Post"] ∧
    (createBlogSlugMap "/project/vault" false [docNewer, docOlder]).map
        (fun m => (getAllBlogPosts m).map (fun d => d.frontmatter.published)) =
      Except.ok ["2024-01-20", "2024-01-10"] ∧
    jsDateParse "2024-01-10" = some 1704844800000 ∧
    jsDateParse "2024-01-20" = some 1705708800000 ∧
    (1704844800000 : Int) < 1705708800000 :=
  ⟨rfl, rfl, rfl, rfl, by decide⟩
